import Mathlib

/-!
Shallow embedding of `kubectl-count` (`kubectl_count.go`) and verification of
its specification.

Conventions of the embedding:
* Go maps are modelled as association lists (`alookup` / `ainsert`); the list
  order stands in for one fixed iteration order, and every theorem quantifies
  over all such lists, hence over all Go map iteration orders.
* Go's signed `int` counters are modelled as `Int` (counts stay tiny, overflow
  is irrelevant to the spec's claims).
* Go library functions used by the source (`strings.Split`, `strings.TrimSpace`,
  `strings.ToLower`, `schema.ParseGroupVersion`) are modelled explicitly over
  `List Char` so that every definition evaluates by `decide`.
* Code that can panic (`parts[1]` after `strings.Split`) or return an error is
  modelled with `Option` / `Except`.
* The informer / network machinery is external to the counting core; only the
  data it feeds into the store (add/delete events, registered ids) is modelled.
-/

/-- Model of Go `strings.Split(s, sep)` for a one-character separator,
working on the character list: split `l` at every occurrence of `c`,
`acc` being the (reversed) current fragment. -/
def splitCharAux (c : Char) : List Char → List Char → List (List Char)
  | [], acc => [acc.reverse]
  | x :: xs, acc =>
    if x = c then acc.reverse :: splitCharAux c xs []
    else splitCharAux c xs (x :: acc)

/-- Model of Go `strings.Split(s, string(c))`: always returns at least one
fragment, and never merges adjacent separators. -/
def splitChar (c : Char) (s : String) : List String :=
  (splitCharAux c s.data []).map String.mk

/-- Model of Go `strings.ToLower` (ASCII case folding; the inputs compared by
the source, `"desc"`, `"d"`, and resource kinds, are ASCII). -/
def toLowerStr (s : String) : String :=
  String.mk (s.data.map Char.toLower)

/-- Model of Go `unicode.IsSpace` restricted to the ASCII whitespace characters
(space, tab, newline, vertical tab, form feed, carriage return). -/
def goIsSpace (c : Char) : Bool :=
  c == ' ' || c == '\t' || c == '\n' || c == '\r' || c == Char.ofNat 11 || c == Char.ofNat 12

/-- Model of Go `strings.TrimSpace`: drop whitespace from both ends. -/
def trimStr (s : String) : String :=
  String.mk (((s.data.dropWhile goIsSpace).reverse.dropWhile goIsSpace).reverse)

/-- Association-list lookup, the model of a Go map read (`v, ok := m[k]`). -/
def alookup {α : Type} : List (String × α) → String → Option α
  | [], _ => none
  | (k, v) :: rest, key => if k = key then some v else alookup rest key

/-- Association-list update, the model of a Go map write (`m[k] = v`):
replaces the binding in place, or appends a fresh one. -/
def ainsert {α : Type} : List (String × α) → String → α → List (String × α)
  | [], key, v => [(key, v)]
  | (k, w) :: rest, key, v =>
    if k = key then (key, v) :: rest else (k, w) :: ainsert rest key v

/-- `Record` from the source: one output row. Field order as in Go
(`Namespace`, `GroupVersion`, `Kind`, `Count`); `Count` is a Go `int`. -/
structure Record where
  Namespace : String
  GroupVersion : String
  Kind : String
  Count : Int
deriving DecidableEq, Repr

/-- `IDMap` from the source: the counter store. `m` is the nested counter
`map[string]map[string]int` (identity id → namespace → count), `ids` the
resolution-order list appended to by `AddID`. The `sync.Mutex` is not
represented: this embedding is sequential, see the notes on claim C8. -/
structure IDMap where
  m : List (String × List (String × Int))
  ids : List String
deriving DecidableEq, Repr

/-- `NewIDMap` from the source: empty counter, empty id list. -/
def NewIDMap : IDMap := ⟨[], []⟩

/-- `IDMap.KindGroupVersion` from the source:
`parts := strings.Split(id, "+"); return parts[0], parts[1]`.
The `parts[1]` access panics when `id` contains no `'+'`; that partiality is
made explicit with `Option` (`none` = out-of-range panic). -/
def IDMap.KindGroupVersion (id : String) : Option (String × String) :=
  match splitChar '+' id with
  | p0 :: p1 :: _ => some (p0, p1)
  | _ => none

/-- `IDMap.Add` from the source: create the inner namespace map if the id is
missing, then `m[id][namespace]++` (a missing inner key reads as 0). -/
def IDMap.Add (idm : IDMap) (id ns : String) : IDMap :=
  let inner := (alookup idm.m id).getD []
  let c := (alookup inner ns).getD 0
  { idm with m := ainsert idm.m id (ainsert inner ns (c + 1)) }

/-- `IDMap.Del` from the source: if the id has no entry, return without any
change; otherwise `m[id][namespace]--` (a missing inner key reads as 0, so an
unseen namespace is created at -1). -/
def IDMap.Del (idm : IDMap) (id ns : String) : IDMap :=
  match alookup idm.m id with
  | none => idm
  | some inner =>
    let c := (alookup inner ns).getD 0
    { idm with m := ainsert idm.m id (ainsert inner ns (c - 1)) }

/-- `IDMap.AddID` from the source: `idm.ids = append(idm.ids, id)`. -/
def IDMap.AddID (idm : IDMap) (id : String) : IDMap :=
  { idm with ids := idm.ids ++ [id] }

/-- The count read for a key, i.e. the Go map read `m[id][namespace]`
(missing keys read as zero). -/
def IDMap.countOf (idm : IDMap) (id ns : String) : Int :=
  match alookup idm.m id with
  | none => 0
  | some inner => (alookup inner ns).getD 0

/-- One event delivered by an informer callback: the `AddFunc` handler calls
`idMap.Add(cloned, o.GetNamespace())`, the `DeleteFunc` handler calls
`idMap.Del(cloned, o.GetNamespace())`. -/
inductive CountEvent where
  | add (id ns : String)
  | del (id ns : String)
deriving DecidableEq, Repr

/-- Dispatch one event to the store, as the two informer handlers do. -/
def IDMap.applyEvent (idm : IDMap) : CountEvent → IDMap
  | CountEvent.add id ns => idm.Add id ns
  | CountEvent.del id ns => idm.Del id ns

/-- Apply a whole event sequence (one interleaving of the callbacks). -/
def IDMap.applyEvents (idm : IDMap) (evs : List CountEvent) : IDMap :=
  evs.foldl IDMap.applyEvent idm

/-- Number of add events for a given key in an event sequence. -/
def countAdds (id ns : String) : List CountEvent → Nat
  | [] => 0
  | CountEvent.add id' ns' :: rest =>
    (if id' = id ∧ ns' = ns then 1 else 0) + countAdds id ns rest
  | CountEvent.del _ _ :: rest => countAdds id ns rest

/-- Number of delete events for a given key in an event sequence. -/
def countDels (id ns : String) : List CountEvent → Nat
  | [] => 0
  | CountEvent.add _ _ :: rest => countDels id ns rest
  | CountEvent.del id' ns' :: rest =>
    (if id' = id ∧ ns' = ns then 1 else 0) + countDels id ns rest

/-- Every delete in the sequence is for an identity that already received some
add earlier (in any namespace); `seen` accumulates the identities added so
far. Under this condition `Del` never hits its missing-id early return. -/
def delsCovered (seen : List String) : List CountEvent → Bool
  | [] => true
  | CountEvent.add id _ :: rest => delsCovered (id :: seen) rest
  | CountEvent.del id _ :: rest => decide (id ∈ seen) && delsCovered seen rest

/-- First phase of `IDMap.GetRecords`: build the per-identity record groups
from the nested counter (`records[id] = rs`). `KindGroupVersion` can panic on
a malformed id, hence `Option`. -/
def recordsOf : List (String × List (String × Int)) → Option (List (String × List Record))
  | [] => some []
  | (id, counter) :: rest =>
    match IDMap.KindGroupVersion id, recordsOf rest with
    | some kg, some rs =>
      some ((id, counter.map (fun q => Record.mk q.1 kg.2 kg.1 q.2)) :: rs)
    | _, _ => none

/-- Loop body of the all-namespaces fold of `GetRecords`:
`r.Count += c.Count; r.GroupVersion = c.GroupVersion`. -/
def aggStep (r c : Record) : Record :=
  { r with Count := r.Count + c.Count, GroupVersion := c.GroupVersion }

/-- The all-namespaces fold of `GetRecords`: start from `Record{Kind: kind}`
(other fields zero-valued) and fold the group, summing `Count` and overwriting
`GroupVersion` with each record's value. -/
def aggRecord (kind : String) (rs : List Record) : Record :=
  rs.foldl aggStep (Record.mk "" "" kind 0)

/-- Second phase of `IDMap.GetRecords` (only when `allNamespace` is set):
collapse each identity's group into the single aggregate record `tmp[id]`. -/
def aggregateRecords : List (String × List Record) → Option (List (String × List Record))
  | [] => some []
  | (id, rs) :: rest =>
    match IDMap.KindGroupVersion id, aggregateRecords rest with
    | some kg, some rest' => some ((id, [aggRecord kg.1 rs]) :: rest')
    | _, _ => none

/-- The sort-direction test of `GetRecords`:
`order = strings.ToLower(order); switch order { case "desc", "d": ... }`. -/
def isDesc (order : String) : Bool :=
  toLowerStr order = "desc" || toLowerStr order = "d"

/-- The comparison used per group: the source sorts with
`rs[i].Count > rs[j].Count` (descending) or `rs[i].Count < rs[j].Count`
(ascending); `recLe` is the corresponding non-strict order on records. -/
def recLe (desc : Bool) (a b : Record) : Bool :=
  if desc then decide (b.Count ≤ a.Count) else decide (a.Count ≤ b.Count)

/-- Ordered insertion, auxiliary to `sortLe`. -/
def insertLe (le : Record → Record → Bool) (a : Record) : List Record → List Record
  | [] => [a]
  | b :: bs => if le a b then a :: b :: bs else b :: insertLe le a bs

/-- Model of `sort.Slice` on one group. `sort.Slice` is an unspecified
(unstable) comparison sort; any comparison sort realizes one of its admissible
outcomes, and nothing in the source or spec depends on the tie order. -/
def sortLe (le : Record → Record → Bool) : List Record → List Record
  | [] => []
  | a :: as => insertLe le a (sortLe le as)

/-- Third phase of `IDMap.GetRecords`: sort every group by count in the
requested direction. -/
def sortPhase (order : String) (recs : List (String × List Record)) : List (String × List Record) :=
  recs.map (fun p => (p.1, sortLe (recLe (isDesc order)) p.2))

/-- `IDMap.GetRecords` from the source: build per-identity groups, optionally
collapse namespaces, sort each group by count, then concatenate the groups
following `idm.ids` (`for _, id := range idm.ids { ret = append(ret, records[id]...) }`;
an id with no group contributes nothing). `none` models the
`KindGroupVersion` panic on a malformed id. -/
def IDMap.GetRecords (idm : IDMap) (order : String) (allNamespace : Bool) : Option (List Record) :=
  match recordsOf idm.m with
  | none => none
  | some recs =>
    match (if allNamespace then aggregateRecords recs else some recs) with
    | none => none
    | some recs2 =>
      some (idm.ids.flatMap (fun id => (alookup (sortPhase order recs2) id).getD []))

/-- `v1.APIResource` restricted to the fields the source reads: plural `Name`,
`SingularName`, `Kind`, `ShortNames`, plus the `Group`/`Version` fields the
source overwrites on its clone. -/
structure APIResource where
  Name : String
  SingularName : String
  Kind : String
  ShortNames : List String
  Group : String
  Version : String
deriving DecidableEq, Repr

/-- One element of the discovery result (`v1.APIResourceList`): a
group/version string and the resources served under it. -/
structure APIResourceList where
  GroupVersion : String
  APIResources : List APIResource
deriving DecidableEq, Repr

/-- `APIResourceGV` from the source: a catalog descriptor paired with the
group/version string of the list it came from. -/
structure APIResourceGV where
  resource : APIResource
  groupVersion : String
deriving DecidableEq, Repr

/-- `APIResourceGV.ID` from the source:
`agv.resource.Kind + "+" + agv.groupVersion`. -/
def APIResourceGV.ID (agv : APIResourceGV) : String :=
  agv.resource.Kind ++ "+" ++ agv.groupVersion

/-- Model of `schema.ParseGroupVersion` (k8s apimachinery, external to the
repository): `""` and `"/"` parse to empty group and version; no slash means
group-less; one slash splits group/version; more slashes is an error. -/
def parseGroupVersion (s : String) : Option (String × String) :=
  if s = "" ∨ s = "/" then some ("", "")
  else
    match splitChar '/' s with
    | [v] => some ("", v)
    | [g, v] => some (g, v)
    | _ => none

/-- The alias index built by `getApiResources`: a Go
`map[string][]APIResourceGV`, as an association list. -/
abbrev AliasIndex := List (String × List APIResourceGV)

/-- One `rm[key] = append(rm[key], agv)` step. -/
def mappend (rm : AliasIndex) (k : String) (v : APIResourceGV) : AliasIndex :=
  ainsert rm k (((alookup rm k).getD []) ++ [v])

/-- Append `agv` under every key in `keys`, in order — the three key loops of
`getApiResources` flattened into one fold. -/
def addKeys (agv : APIResourceGV) (keys : List String) (rm : AliasIndex) : AliasIndex :=
  keys.foldl (fun acc k => mappend acc k agv) rm

/-- The alias keys one descriptor is indexed under, in registration order:
`keys := []string{r.Name, strings.ToLower(r.Kind), fmt.Sprintf("%s.%s", r.Name, gv.Group)}`,
then every short name, then the singular name when non-empty. -/
def keysFor (r : APIResource) (group : String) : List String :=
  [r.Name, toLowerStr r.Kind, r.Name ++ "." ++ group] ++ r.ShortNames ++
    (if r.SingularName = "" then [] else [r.SingularName])

/-- Index one resource of one list: clone it, overwrite the clone's
`Group`/`Version` with the parsed pair, and register the
`APIResourceGV` under all its keys. -/
def processResource (gv : String × String) (listGV : String) (rm : AliasIndex) (r : APIResource) : AliasIndex :=
  addKeys ⟨{ r with Group := gv.1, Version := gv.2 }, listGV⟩ (keysFor r gv.1) rm

/-- Index one `APIResourceList`; `ParseGroupVersion` failure aborts
`getApiResources` with an error (`none`). -/
def processList (rl : APIResourceList) (rm : AliasIndex) : Option AliasIndex :=
  match parseGroupVersion rl.GroupVersion with
  | none => none
  | some gv => some (rl.APIResources.foldl (processResource gv rl.GroupVersion) rm)

/-- The outer loop of `getApiResources` over the discovery result. -/
def getApiResourcesAux : List APIResourceList → AliasIndex → Option AliasIndex
  | [], rm => some rm
  | rl :: rest, rm =>
    match processList rl rm with
    | none => none
    | some rm' => getApiResourcesAux rest rm'

/-- `CounterController.getApiResources` from the source, as a function of the
discovery result (the `ServerPreferredResources()` return value, whose error
the source discards). -/
def getApiResources (catalog : List APIResourceList) : Option AliasIndex :=
  getApiResourcesAux catalog []

/-- Loop body of `CounterController.sanitizeKinds`:
`part = strings.TrimSpace(part); if part != "" { kinds = append(kinds, part) }`. -/
def sanitizeStep (acc : List String) (part : String) : List String :=
  if trimStr part ≠ "" then acc ++ [trimStr part] else acc

/-- `CounterController.sanitizeKinds` from the source, kept in its loop shape:
split on commas, trim each part, keep the non-empty ones. -/
def sanitizeKinds (s : String) : List String :=
  (splitChar ',' s).foldl sanitizeStep []

/-- The identity ids resolved by the token loop of `CounterController.list`:
for each token that is a key of the alias index, every matched descriptor
contributes its `ID()`; the id list keeps duplicates and resolution order
(each element is also one `informers[ar.ID()] = …` registration attempt;
the `informers` map itself deduplicates ids). -/
def resolveIds (rm : AliasIndex) (kinds : List String) : List String :=
  kinds.flatMap (fun kind => ((alookup rm kind).getD []).map APIResourceGV.ID)

/-- `CounterController.list` from the source, up to the point where the
watches are started: empty token list and empty informer map are errors,
otherwise the resolution order is returned (the counting itself is driven by
the informer events, modelled by `IDMap.applyEvents`). The `informers` map is
empty exactly when `resolveIds` is empty, so the emptiness test is taken on
the id list. -/
def list (catalog : List APIResourceList) (s : String) : Except String (List String) :=
  if sanitizeKinds s = [] then Except.error ("invalid input kind name: '" ++ s ++ "'")
  else
    match getApiResources catalog with
    | none => Except.error "unexpected GroupVersion string"
    | some rm =>
      if resolveIds rm (sanitizeKinds s) = [] then Except.error "no available informers found"
      else Except.ok (resolveIds rm (sanitizeKinds s))

/-- Observable outcome of a run: the lines written to standard output, the
lines written to standard error, and `some code` when the process called
`os.Exit(code)` (a `none` exit code is a normal return, exit status 0). -/
structure ExecResult where
  stdoutLines : List String
  stderrLines : List String
  exitCode : Option Nat
deriving DecidableEq, Repr

/-- `CounterController.Render` from the source, as a function of the outcome
of `list` + watch phase (an error or the synced `IDMap`) and of a rendering
function standing for the external table/JSON/YAML serializers (which write to
standard output). A `list` error goes to standard error with exit 1; an empty
record list prints `"[Oh...] No Resources found!"` — on standard output, via
`fmt.Fprintln(os.Stdout, …)` — and exits 1; otherwise the rendered records go
to standard output. `none` models the `KindGroupVersion` panic. -/
def Render (renderFn : String → List Record → List String)
    (listResult : Except String IDMap) (order output : String) (allNamespace : Bool) :
    Option ExecResult :=
  match listResult with
  | Except.error e =>
    some ⟨[], ["[Oh...] Failed to list resources, error: " ++ e], some 1⟩
  | Except.ok idm =>
    match idm.GetRecords order allNamespace with
    | none => none
    | some records =>
      if records.length ≤ 0 then
        some ⟨["[Oh...] No Resources found!"], [], some 1⟩
      else
        some ⟨renderFn output records, [], none⟩

/-! ### Association-list lemmas -/

theorem alookup_ainsert {α : Type} (l : List (String × α)) (k : String) (v : α) (key : String) :
    alookup (ainsert l k v) key = if k = key then some v else alookup l key := by
  induction l with
  | nil => simp [ainsert, alookup]
  | cons p rest ih =>
    obtain ⟨k', w⟩ := p
    by_cases h : k' = k
    · subst h
      simp only [ainsert, if_pos rfl, alookup]
      by_cases h2 : k' = key <;> simp [h2]
    · simp only [ainsert, if_neg h, alookup, ih]
      by_cases h2 : k' = key
      · subst h2
        have h3 : k ≠ k' := fun hk => h hk.symm
        simp [h3]
      · simp [h2]

theorem alookup_ainsert_isSome {α : Type} (l : List (String × α)) (k : String) (v : α)
    (key : String) :
    (alookup (ainsert l k v) key).isSome = true ↔
      key = k ∨ (alookup l key).isSome = true := by
  rw [alookup_ainsert]
  by_cases h : k = key
  · subst h; simp
  · rw [if_neg h]
    constructor
    · intro h2; exact Or.inr h2
    · rintro (rfl | h2)
      · exact absurd rfl h
      · exact h2

/-! ### Counter-store lemmas (claims C1 and C9) -/

theorem countOf_Add (idm : IDMap) (id' ns' id ns : String) :
    (idm.Add id' ns').countOf id ns =
      idm.countOf id ns + (if id' = id ∧ ns' = ns then 1 else 0) := by
  unfold IDMap.Add IDMap.countOf
  simp only [alookup_ainsert]
  by_cases h1 : id' = id
  · subst h1
    simp only [if_pos rfl, alookup_ainsert]
    by_cases h2 : ns' = ns
    · subst h2
      cases h : alookup idm.m id' <;> simp [h, alookup_ainsert, alookup]
    · cases h : alookup idm.m id' <;> simp [h, h2, alookup_ainsert, alookup]
  · simp [h1]

theorem countOf_Del (idm : IDMap) (id' ns' id ns : String)
    (hmem : (alookup idm.m id').isSome = true) :
    (idm.Del id' ns').countOf id ns =
      idm.countOf id ns - (if id' = id ∧ ns' = ns then 1 else 0) := by
  unfold IDMap.Del IDMap.countOf
  cases h : alookup idm.m id' with
  | none => rw [h] at hmem; simp at hmem
  | some inner =>
    simp only [alookup_ainsert]
    by_cases h1 : id' = id
    · subst h1
      simp only [if_pos rfl, alookup_ainsert]
      by_cases h2 : ns' = ns
      · subst h2; simp [h, alookup_ainsert]
      · simp [h, h2, alookup_ainsert]
    · simp [h1]

theorem keys_Add (idm : IDMap) (id' ns' x : String) :
    (alookup (idm.Add id' ns').m x).isSome = true ↔
      x = id' ∨ (alookup idm.m x).isSome = true := by
  unfold IDMap.Add
  exact alookup_ainsert_isSome _ _ _ _

theorem keys_Del (idm : IDMap) (id' ns' x : String) :
    (alookup (idm.Del id' ns').m x).isSome = true ↔ (alookup idm.m x).isSome = true := by
  unfold IDMap.Del
  cases h : alookup idm.m id' with
  | none => rfl
  | some inner =>
    simp only []
    rw [alookup_ainsert_isSome]
    constructor
    · rintro (rfl | h2)
      · simp [h]
      · exact h2
    · intro h2; exact Or.inr h2

theorem delsCovered_congr (evs : List CountEvent) :
    ∀ seen1 seen2 : List String, (∀ x, x ∈ seen1 ↔ x ∈ seen2) →
      delsCovered seen1 evs = delsCovered seen2 evs := by
  induction evs with
  | nil => intro _ _ _; rfl
  | cons ev rest ih =>
    intro seen1 seen2 hiff
    cases ev with
    | add id nsx =>
      simp only [delsCovered]
      exact ih (id :: seen1) (id :: seen2) (fun x => by simp [hiff x])
    | del id nsx =>
      simp only [delsCovered]
      rw [ih seen1 seen2 hiff]
      congr 1
      simp [hiff id]

theorem applyEvents_countOf (evs : List CountEvent) :
    ∀ (seen : List String) (idm : IDMap) (id ns : String),
      (∀ x, x ∈ seen ↔ (alookup idm.m x).isSome = true) →
      delsCovered seen evs = true →
      (idm.applyEvents evs).countOf id ns =
        idm.countOf id ns + (countAdds id ns evs : Int) - (countDels id ns evs : Int) := by
  induction evs with
  | nil =>
    intro seen idm id ns _ _
    simp [IDMap.applyEvents, countAdds, countDels]
  | cons ev rest ih =>
    intro seen idm id ns hseen hcov
    cases ev with
    | add id' ns' =>
      have hstep : (idm.applyEvents (CountEvent.add id' ns' :: rest)) =
          ((idm.Add id' ns').applyEvents rest) := rfl
      rw [hstep]
      have hseen' : ∀ x, x ∈ (id' :: seen) ↔ (alookup (idm.Add id' ns').m x).isSome = true := by
        intro x
        rw [keys_Add]
        simp [hseen x]
      have hcov' : delsCovered (id' :: seen) rest = true := by
        simpa [delsCovered] using hcov
      rw [ih (id' :: seen) (idm.Add id' ns') id ns hseen' hcov']
      rw [countOf_Add]
      simp only [countAdds, countDels]
      by_cases hmatch : id' = id ∧ ns' = ns
      · simp only [if_pos hmatch]; push_cast; ring
      · simp only [if_neg hmatch]; push_cast; ring
    | del id' ns' =>
      have hstep : (idm.applyEvents (CountEvent.del id' ns' :: rest)) =
          ((idm.Del id' ns').applyEvents rest) := rfl
      rw [hstep]
      have hcov2 : decide (id' ∈ seen) = true ∧ delsCovered seen rest = true := by
        simpa [delsCovered] using hcov
      have hmem : (alookup idm.m id').isSome = true := by
        rw [← hseen id']
        exact of_decide_eq_true hcov2.1
      have hseen' : ∀ x, x ∈ seen ↔ (alookup (idm.Del id' ns').m x).isSome = true := by
        intro x
        rw [keys_Del]
        exact hseen x
      rw [ih seen (idm.Del id' ns') id ns hseen' hcov2.2]
      rw [countOf_Del idm id' ns' id ns hmem]
      simp only [countAdds, countDels]
      by_cases hmatch : id' = id ∧ ns' = ns
      · simp only [if_pos hmatch]; push_cast; ring
      · simp only [if_neg hmatch]; push_cast; ring

/-! ### Sorting lemmas (claim C2) -/

theorem insertLe_perm (le : Record → Record → Bool) (a : Record) (l : List Record) :
    (insertLe le a l).Perm (a :: l) := by
  induction l with
  | nil => exact List.Perm.refl _
  | cons b bs ih =>
    simp only [insertLe]
    by_cases h : le a b = true
    · rw [if_pos h]
    · rw [if_neg h]
      exact (ih.cons b).trans (List.Perm.swap a b bs)

theorem sortLe_perm (le : Record → Record → Bool) (l : List Record) :
    (sortLe le l).Perm l := by
  induction l with
  | nil => exact List.Perm.refl _
  | cons a as ih =>
    exact (insertLe_perm le a (sortLe le as)).trans (ih.cons a)

theorem insertLe_pairwise (le : Record → Record → Bool)
    (htotal : ∀ a b, le a b = true ∨ le b a = true)
    (htrans : ∀ a b c, le a b = true → le b c = true → le a c = true)
    (a : Record) (l : List Record) (hl : l.Pairwise (fun x y => le x y = true)) :
    (insertLe le a l).Pairwise (fun x y => le x y = true) := by
  induction l with
  | nil => simp [insertLe]
  | cons b bs ih =>
    rw [List.pairwise_cons] at hl
    simp only [insertLe]
    by_cases h : le a b = true
    · rw [if_pos h]
      rw [List.pairwise_cons]
      refine ⟨?_, List.pairwise_cons.mpr hl⟩
      intro x hx
      rcases List.mem_cons.mp hx with rfl | hx2
      · exact h
      · exact htrans a b x h (hl.1 x hx2)
    · rw [if_neg h]
      rw [List.pairwise_cons]
      refine ⟨?_, ih hl.2⟩
      intro x hx
      have hx3 : x ∈ a :: bs := (insertLe_perm le a bs).mem_iff.mp hx
      rcases List.mem_cons.mp hx3 with rfl | hx4
      · rcases htotal x b with h1 | h2
        · exact absurd h1 h
        · exact h2
      · exact hl.1 x hx4

theorem sortLe_pairwise (le : Record → Record → Bool)
    (htotal : ∀ a b, le a b = true ∨ le b a = true)
    (htrans : ∀ a b c, le a b = true → le b c = true → le a c = true)
    (l : List Record) :
    (sortLe le l).Pairwise (fun x y => le x y = true) := by
  induction l with
  | nil => simp [sortLe]
  | cons a as ih => exact insertLe_pairwise le htotal htrans a (sortLe le as) ih

theorem recLe_total (d : Bool) (a b : Record) : recLe d a b = true ∨ recLe d b a = true := by
  cases d <;> simp [recLe, decide_eq_true_eq] <;> exact Int.le_total _ _

theorem recLe_trans (d : Bool) (a b c : Record) :
    recLe d a b = true → recLe d b c = true → recLe d a c = true := by
  cases d <;> simp [recLe, decide_eq_true_eq] <;> intro h1 h2 <;> omega

theorem alookup_map_snd {α β : Type} (f : α → β) (l : List (String × α)) (key : String) :
    alookup (l.map (fun p => (p.1, f p.2))) key = (alookup l key).map f := by
  induction l with
  | nil => simp [alookup]
  | cons p rest ih =>
    obtain ⟨k, v⟩ := p
    by_cases h : k = key
    · simp [alookup, h]
    · simp [alookup, h, ih]

theorem alookup_sortPhase (order : String) (recs : List (String × List Record)) (id : String) :
    alookup (sortPhase order recs) id =
      (alookup recs id).map (sortLe (recLe (isDesc order))) := by
  unfold sortPhase
  exact alookup_map_snd _ recs id

/-! ### Per-identity group lemmas (claims C2 and C3) -/

theorem recordsOf_alookup (m : List (String × List (String × Int)))
    (recs : List (String × List Record)) (h : recordsOf m = some recs) (id : String) :
    (alookup m id = none → alookup recs id = none) ∧
    (∀ counter, alookup m id = some counter →
      ∃ kg, IDMap.KindGroupVersion id = some kg ∧
        alookup recs id = some (counter.map (fun q => Record.mk q.1 kg.2 kg.1 q.2))) ∧
    (∀ rs, alookup recs id = some rs →
      ∃ counter kg, alookup m id = some counter ∧ IDMap.KindGroupVersion id = some kg ∧
        rs = counter.map (fun q => Record.mk q.1 kg.2 kg.1 q.2)) := by
  induction m generalizing recs with
  | nil =>
    simp only [recordsOf, Option.some.injEq] at h
    subst h
    simp [alookup]
  | cons p rest ih =>
    obtain ⟨id', counter'⟩ := p
    simp only [recordsOf] at h
    cases hkg : IDMap.KindGroupVersion id' with
    | none => rw [hkg] at h; simp at h
    | some kg' =>
      rw [hkg] at h
      cases hrest : recordsOf rest with
      | none => rw [hrest] at h; simp at h
      | some rs' =>
        rw [hrest] at h
        simp only [Option.some.injEq] at h
        subst h
        by_cases hid : id' = id
        · subst hid
          refine ⟨?_, ?_, ?_⟩
          · intro hnone; simp [alookup] at hnone
          · intro counter hc
            simp [alookup] at hc
            subst hc
            exact ⟨kg', hkg, by simp [alookup]⟩
          · intro rs hrs
            simp [alookup] at hrs
            exact ⟨counter', kg', by simp [alookup], hkg, hrs.symm⟩
        · have ih2 := ih rs' hrest
          refine ⟨?_, ?_, ?_⟩
          · intro hnone
            simp only [alookup, if_neg hid] at hnone ⊢
            exact (ih2).1 hnone
          · intro counter hc
            simp only [alookup, if_neg hid] at hc ⊢
            exact (ih2).2.1 counter hc
          · intro rs hrs
            simp only [alookup, if_neg hid] at hrs ⊢
            exact (ih2).2.2 rs hrs

theorem aggregateRecords_alookup (recs : List (String × List Record))
    (aggs : List (String × List Record)) (h : aggregateRecords recs = some aggs) (id : String) :
    (alookup recs id = none → alookup aggs id = none) ∧
    (∀ rs, alookup recs id = some rs →
      ∃ kg, IDMap.KindGroupVersion id = some kg ∧
        alookup aggs id = some [aggRecord kg.1 rs]) := by
  induction recs generalizing aggs with
  | nil =>
    simp only [aggregateRecords, Option.some.injEq] at h
    subst h
    simp [alookup]
  | cons p rest ih =>
    obtain ⟨id', rs'⟩ := p
    simp only [aggregateRecords] at h
    cases hkg : IDMap.KindGroupVersion id' with
    | none => rw [hkg] at h; simp at h
    | some kg' =>
      rw [hkg] at h
      cases hrest : aggregateRecords rest with
      | none => rw [hrest] at h; simp at h
      | some rest' =>
        rw [hrest] at h
        simp only [Option.some.injEq] at h
        subst h
        by_cases hid : id' = id
        · subst hid
          refine ⟨?_, ?_⟩
          · intro hnone; simp [alookup] at hnone
          · intro rs hrs
            simp [alookup] at hrs
            subst hrs
            exact ⟨kg', hkg, by simp [alookup]⟩
        · have ih2 := ih rest' hrest
          refine ⟨?_, ?_⟩
          · intro hnone
            simp only [alookup, if_neg hid] at hnone ⊢
            exact ih2.1 hnone
          · intro rs hrs
            simp only [alookup, if_neg hid] at hrs ⊢
            exact ih2.2 rs hrs

theorem aggStep_foldl_namespace (rs : List Record) :
    ∀ r0 : Record, (rs.foldl aggStep r0).Namespace = r0.Namespace := by
  induction rs with
  | nil => intro r0; rfl
  | cons c rest ih => intro r0; simp only [List.foldl_cons]; rw [ih]; rfl

theorem aggStep_foldl_kind (rs : List Record) :
    ∀ r0 : Record, (rs.foldl aggStep r0).Kind = r0.Kind := by
  induction rs with
  | nil => intro r0; rfl
  | cons c rest ih => intro r0; simp only [List.foldl_cons]; rw [ih]; rfl

theorem aggStep_foldl_count (rs : List Record) :
    ∀ r0 : Record, (rs.foldl aggStep r0).Count = r0.Count + (rs.map Record.Count).sum := by
  induction rs with
  | nil => intro r0; simp
  | cons c rest ih =>
    intro r0
    simp only [List.foldl_cons, List.map_cons, List.sum_cons]
    rw [ih]
    simp [aggStep]
    ring

theorem aggStep_foldl_gv (rs : List Record) (g : String) :
    ∀ r0 : Record, (∀ pr ∈ rs, pr.GroupVersion = g) → rs ≠ [] →
      (rs.foldl aggStep r0).GroupVersion = g := by
  induction rs with
  | nil => intro r0 _ hne; exact absurd rfl hne
  | cons c rest ih =>
    intro r0 hall _
    simp only [List.foldl_cons]
    cases hr : rest with
    | nil =>
      simp only [hr, List.foldl_nil]
      have hc : c.GroupVersion = g := hall c (by simp)
      simp [aggStep, hc]
    | cons d ds =>
      subst hr
      exact ih (aggStep r0 c) (fun pr hpr => hall pr (List.mem_cons_of_mem c hpr)) (by simp)

/-! ### Claim C1 -/

/-- C1 counterexample: a `Del` observed before any `Add` for its identity is a
no-op — after one lone delete the store has no entry for the key at all and
the count reads 0, not the claimed N − M = −1. -/
theorem C1_counterexample :
    (NewIDMap.applyEvents [CountEvent.del "Pod+v1" "ns3"]).countOf "Pod+v1" "ns3" = 0 ∧
    alookup (NewIDMap.applyEvents [CountEvent.del "Pod+v1" "ns3"]).m "Pod+v1" = none ∧
    ((NewIDMap.applyEvents [CountEvent.del "Pod+v1" "ns3"]).countOf "Pod+v1" "ns3" ≠
      (countAdds "Pod+v1" "ns3" [CountEvent.del "Pod+v1" "ns3"] : Int) -
        (countDels "Pod+v1" "ns3" [CountEvent.del "Pod+v1" "ns3"] : Int)) := by
  decide

/-- C1 (amended): for any interleaving of `Add`/`Del` calls on a fresh store
in which every `Del(id, ns)` happens after at least one `Add` for the same
identity `id` (in any namespace) — which is when `Del` does not take its
missing-identity early return — the count read for each key equals exactly
N − M, N the number of `Add(id, ns)` and M the number of `Del(id, ns)` calls;
the count is not clamped at zero and becomes negative when namespaces of one
identity disagree (see the witness). A `Del` for a completely unseen identity,
however, is ignored, so N − M fails in general (see the counterexample). -/
theorem C1_count_invariant (evs : List CountEvent) (id ns : String)
    (hcov : delsCovered [] evs = true) :
    (NewIDMap.applyEvents evs).countOf id ns =
      (countAdds id ns evs : Int) - (countDels id ns evs : Int) := by
  have h := applyEvents_countOf evs [] NewIDMap id ns
    (by intro x; simp [NewIDMap, alookup]) hcov
  simpa [NewIDMap, IDMap.countOf, alookup] using h

/-- Witness for `C1_count_invariant`: one add on `ns1`, two deletes on `ns2`;
the `ns2` count is 0 − 2 = −2, negative and unclamped. -/
theorem C1_count_invariant_witness :
    delsCovered []
      [CountEvent.add "Pod+v1" "ns1", CountEvent.del "Pod+v1" "ns2",
        CountEvent.del "Pod+v1" "ns2"] = true ∧
    (NewIDMap.applyEvents
      [CountEvent.add "Pod+v1" "ns1", CountEvent.del "Pod+v1" "ns2",
        CountEvent.del "Pod+v1" "ns2"]).countOf "Pod+v1" "ns2" =
      (countAdds "Pod+v1" "ns2"
        [CountEvent.add "Pod+v1" "ns1", CountEvent.del "Pod+v1" "ns2",
          CountEvent.del "Pod+v1" "ns2"] : Int) -
      (countDels "Pod+v1" "ns2"
        [CountEvent.add "Pod+v1" "ns1", CountEvent.del "Pod+v1" "ns2",
          CountEvent.del "Pod+v1" "ns2"] : Int) :=
  ⟨by decide,
    C1_count_invariant
      [CountEvent.add "Pod+v1" "ns1", CountEvent.del "Pod+v1" "ns2",
        CountEvent.del "Pod+v1" "ns2"] "Pod+v1" "ns2" (by decide)⟩

/-! ### Claim C9 -/

/-- C9: `Del(id, ns)` for an identity with no entry in the store leaves the
store completely unchanged (no entry created, no count modified); when the
identity already has an entry and `ns` is unseen, `Del` creates the `ns`
entry at −1. -/
theorem C9_del_frame (idm : IDMap) (id ns : String) :
    (alookup idm.m id = none → idm.Del id ns = idm) ∧
    (∀ inner, alookup idm.m id = some inner → alookup inner ns = none →
      ∃ inner2, alookup (idm.Del id ns).m id = some inner2 ∧
        alookup inner2 ns = some (-1) ∧ (idm.Del id ns).countOf id ns = -1) := by
  constructor
  · intro hnone
    unfold IDMap.Del
    rw [hnone]
  · intro inner hsome hns
    unfold IDMap.Del IDMap.countOf
    rw [hsome]
    simp only [hns, Option.getD_none, alookup_ainsert, if_pos rfl]
    exact ⟨ainsert inner ns (0 - 1), rfl, by simp [alookup_ainsert], by simp [alookup_ainsert]⟩

/-- Witness for `C9_del_frame`: on the store `{a ↦ {x ↦ 1}}`, a delete for the
unseen identity `b` is a no-op, and a delete for `(a, y)` creates `y` at −1. -/
theorem C9_del_frame_witness :
    ((⟨[("a", [("x", 1)])], []⟩ : IDMap).Del "b" "y" = ⟨[("a", [("x", 1)])], []⟩) ∧
    (∃ inner2, alookup ((⟨[("a", [("x", 1)])], []⟩ : IDMap).Del "a" "y").m "a" = some inner2 ∧
      alookup inner2 "y" = some (-1) ∧
      ((⟨[("a", [("x", 1)])], []⟩ : IDMap).Del "a" "y").countOf "a" "y" = -1) :=
  ⟨(C9_del_frame ⟨[("a", [("x", 1)])], []⟩ "b" "y").1 (by decide),
    (C9_del_frame ⟨[("a", [("x", 1)])], []⟩ "a" "y").2 [("x", 1)] (by decide) (by decide)⟩


/-- `GetRecords` rewritten with `Option.bind`/`Option.map`, for use in proofs. -/
theorem getRecords_eq (idm : IDMap) (order : String) (allNS : Bool) :
    idm.GetRecords order allNS =
      (recordsOf idm.m).bind (fun recs =>
        (if allNS then aggregateRecords recs else some recs).map (fun recs2 =>
          idm.ids.flatMap (fun id => (alookup (sortPhase order recs2) id).getD []))) := by
  unfold IDMap.GetRecords
  cases recordsOf idm.m with
  | none => rfl
  | some recs =>
    show (match (if allNS then aggregateRecords recs else some recs) with
      | none => none
      | some recs2 =>
        some (idm.ids.flatMap (fun id => (alookup (sortPhase order recs2) id).getD []))) =
      (if allNS then aggregateRecords recs else some recs).map (fun recs2 =>
        idm.ids.flatMap (fun id => (alookup (sortPhase order recs2) id).getD []))
    cases (if allNS then aggregateRecords recs else some recs) with
    | none => rfl
    | some recs2 => rfl

/-! ### Claim C2 -/

/-- C2: for every counter-store state and every resolution order, the record
sequence returned by `GetRecords` is exactly the concatenation, following the
first-resolution order `idm.ids`, of per-identity groups, where the group
concatenated for identity `id` is that identity's own group of the snapshot
(`recs2`, the output of `recordsOf` / `aggregateRecords`, whose entry at `id`
is built from `id`'s counter — see `recordsOf_alookup`), resorted: it is a
permutation of `(alookup recs2 id).getD []`. Within each group the `Count`
fields are non-decreasing when the lowercased order argument is not
`"desc"`/`"d"` (`isDesc` false) and non-increasing when it is (`recLe` is
exactly that direction test). For every other sort direction `order2` the
output is the same concatenation along the same `idm.ids` of the same
per-identity groups resorted the other way — the cross-group order does not
depend on the direction, and the output is never globally resorted. -/
theorem C2_getRecords_order (idm : IDMap) (order : String) (allNS : Bool) (out : List Record)
    (hout : idm.GetRecords order allNS = some out) :
    ∃ recs recs2,
      recordsOf idm.m = some recs ∧
      (if allNS then aggregateRecords recs else some recs) = some recs2 ∧
      out = idm.ids.flatMap (fun id => (alookup (sortPhase order recs2) id).getD []) ∧
      (∀ id, ((alookup (sortPhase order recs2) id).getD []).Pairwise
        (fun a b => recLe (isDesc order) a b = true)) ∧
      (∀ id, ((alookup (sortPhase order recs2) id).getD []).Perm
        ((alookup recs2 id).getD [])) ∧
      (∀ order2, idm.GetRecords order2 allNS =
        some (idm.ids.flatMap (fun id => (alookup (sortPhase order2 recs2) id).getD []))) := by
  rw [getRecords_eq] at hout
  cases hrec : recordsOf idm.m with
  | none => rw [hrec] at hout; simp at hout
  | some recs =>
    rw [hrec, Option.some_bind] at hout
    cases hagg : (if allNS then aggregateRecords recs else some recs) with
    | none => rw [hagg] at hout; simp at hout
    | some recs2 =>
      rw [hagg, Option.map_some'] at hout
      simp only [Option.some.injEq] at hout
      subst hout
      refine ⟨recs, recs2, rfl, hagg, rfl, ?_, ?_, ?_⟩
      · intro id
        rw [alookup_sortPhase]
        cases h : alookup recs2 id with
        | none => simp
        | some rs =>
          simp only [Option.map_some', Option.getD_some]
          exact sortLe_pairwise _ (recLe_total _) (recLe_trans _) rs
      · intro id
        rw [alookup_sortPhase]
        cases h : alookup recs2 id with
        | none => simp
        | some rs =>
          simp only [Option.map_some', Option.getD_some]
          exact sortLe_perm _ rs
      · intro order2
        rw [getRecords_eq, hrec, Option.some_bind, hagg, Option.map_some']

/-- Witness for `C2_getRecords_order`: the two-namespace single-identity store
of the spec's scenario 5, ascending order. -/
theorem C2_getRecords_order_witness :
    ∃ recs recs2,
      recordsOf (⟨[("Pod+v1", [("ns1", 2), ("ns2", 1)])], ["Pod+v1"]⟩ : IDMap).m = some recs ∧
      (if false then aggregateRecords recs else some recs) = some recs2 ∧
      [Record.mk "ns2" "v1" "Pod" 1, Record.mk "ns1" "v1" "Pod" 2] =
        (⟨[("Pod+v1", [("ns1", 2), ("ns2", 1)])], ["Pod+v1"]⟩ : IDMap).ids.flatMap
          (fun id => (alookup (sortPhase "asc" recs2) id).getD []) ∧
      (∀ id, ((alookup (sortPhase "asc" recs2) id).getD []).Pairwise
        (fun a b => recLe (isDesc "asc") a b = true)) ∧
      (∀ id, ((alookup (sortPhase "asc" recs2) id).getD []).Perm
        ((alookup recs2 id).getD [])) ∧
      (∀ order2, (⟨[("Pod+v1", [("ns1", 2), ("ns2", 1)])], ["Pod+v1"]⟩ : IDMap).GetRecords
          order2 false =
        some ((⟨[("Pod+v1", [("ns1", 2), ("ns2", 1)])], ["Pod+v1"]⟩ : IDMap).ids.flatMap
          (fun id => (alookup (sortPhase order2 recs2) id).getD []))) :=
  C2_getRecords_order ⟨[("Pod+v1", [("ns1", 2), ("ns2", 1)])], ["Pod+v1"]⟩ "asc" false
    [Record.mk "ns2" "v1" "Pod" 1, Record.mk "ns1" "v1" "Pod" 2] (by decide)
/-! ### Claim C3 -/

/-- C3: in aggregate-all-namespaces mode `GetRecords` emits, for every
identity group of the snapshot, exactly one record, whose `Count` is the sum
of that identity's per-namespace counts, whose `Namespace` is the empty
string, and whose `GroupVersion` equals the (constant) group/version carried
by each of that identity's per-namespace records; the output is the
concatenation of these singleton groups along `idm.ids`. -/
theorem C3_aggregate (idm : IDMap) (order : String) (out : List Record)
    (hout : idm.GetRecords order true = some out) :
    ∃ recs aggs, recordsOf idm.m = some recs ∧ aggregateRecords recs = some aggs ∧
      out = idm.ids.flatMap (fun id => (alookup (sortPhase order aggs) id).getD []) ∧
      (∀ id rs, alookup recs id = some rs →
        ∃ r, alookup (sortPhase order aggs) id = some [r] ∧
          r.Namespace = "" ∧
          r.Count = (rs.map Record.Count).sum ∧
          (∀ pr ∈ rs, r.GroupVersion = pr.GroupVersion)) := by
  rw [getRecords_eq] at hout
  cases hrec : recordsOf idm.m with
  | none => rw [hrec] at hout; simp at hout
  | some recs =>
    rw [hrec, Option.some_bind, if_pos rfl] at hout
    cases hagg : aggregateRecords recs with
    | none => rw [hagg] at hout; simp at hout
    | some aggs =>
      rw [hagg, Option.map_some'] at hout
      simp only [Option.some.injEq] at hout
      subst hout
      refine ⟨recs, aggs, rfl, hagg, rfl, ?_⟩
      intro id rs hrs
      obtain ⟨kg, hkg, haggid⟩ := (aggregateRecords_alookup recs aggs hagg id).2 rs hrs
      obtain ⟨counter, kg', hcounter, hkg', hrseq⟩ :=
        (recordsOf_alookup idm.m recs hrec id).2.2 rs hrs
      have hkgeq : kg' = kg := by
        rw [hkg] at hkg'
        exact Option.some.inj hkg'.symm
      subst hkgeq
      have hgvconst : ∀ pr ∈ rs, pr.GroupVersion = kg'.2 := by
        intro pr hpr
        rw [hrseq] at hpr
        obtain ⟨q, _, hq⟩ := List.mem_map.mp hpr
        rw [← hq]
      refine ⟨aggRecord kg'.1 rs, ?_, ?_, ?_, ?_⟩
      · rw [alookup_sortPhase, haggid]
        simp [sortLe, insertLe]
      · exact aggStep_foldl_namespace rs _
      · have h := aggStep_foldl_count rs (Record.mk "" "" kg'.1 0)
        simpa [aggRecord] using h
      · intro pr hpr
        have hne : rs ≠ [] := by
          intro hnil
          rw [hnil] at hpr
          exact absurd hpr (List.not_mem_nil pr)
        have hgv : (aggRecord kg'.1 rs).GroupVersion = kg'.2 :=
          aggStep_foldl_gv rs kg'.2 _ hgvconst hne
        rw [hgv, hgvconst pr hpr]

/-- Witness for `C3_aggregate`: scenario 6 of the spec — two namespaces with
counts 2 and 1 collapse to the single record with count 3. -/
theorem C3_aggregate_witness :
    ∃ recs aggs,
      recordsOf (⟨[("Pod+v1", [("ns1", 2), ("ns2", 1)])], ["Pod+v1"]⟩ : IDMap).m = some recs ∧
      aggregateRecords recs = some aggs ∧
      [Record.mk "" "v1" "Pod" 3] =
        (⟨[("Pod+v1", [("ns1", 2), ("ns2", 1)])], ["Pod+v1"]⟩ : IDMap).ids.flatMap
          (fun id => (alookup (sortPhase "asc" aggs) id).getD []) ∧
      (∀ id rs, alookup recs id = some rs →
        ∃ r, alookup (sortPhase "asc" aggs) id = some [r] ∧
          r.Namespace = "" ∧
          r.Count = (rs.map Record.Count).sum ∧
          (∀ pr ∈ rs, r.GroupVersion = pr.GroupVersion)) :=
  C3_aggregate ⟨[("Pod+v1", [("ns1", 2), ("ns2", 1)])], ["Pod+v1"]⟩ "asc"
    [Record.mk "" "v1" "Pod" 3] (by decide)

/-! ### Split lemmas (claims C10 and C6) -/

theorem splitCharAux_no_sep (c : Char) (l : List Char) (h : ∀ x ∈ l, x ≠ c) :
    ∀ acc, splitCharAux c l acc = [acc.reverse ++ l] := by
  induction l with
  | nil => intro acc; simp [splitCharAux]
  | cons x xs ih =>
    intro acc
    have hx : x ≠ c := h x (by simp)
    simp only [splitCharAux, if_neg hx]
    rw [ih (fun y hy => h y (by simp [hy])) (x :: acc)]
    simp

theorem splitCharAux_append (c : Char) (l2 : List Char) (l1 : List Char)
    (h1 : ∀ x ∈ l1, x ≠ c) :
    ∀ acc, splitCharAux c (l1 ++ c :: l2) acc =
      (acc.reverse ++ l1) :: splitCharAux c l2 [] := by
  induction l1 with
  | nil => intro acc; simp [splitCharAux]
  | cons x xs ih =>
    intro acc
    have hx : x ≠ c := h1 x (by simp)
    simp only [List.cons_append, splitCharAux, if_neg hx, List.append_eq]
    rw [ih (fun y hy => h1 y (by simp [hy])) (x :: acc)]
    simp

theorem splitChar_of_join (c : Char) (a b : String)
    (ha : ∀ x ∈ a.data, x ≠ c) (hb : ∀ x ∈ b.data, x ≠ c) :
    splitChar c (a ++ String.mk [c] ++ b) = [a, b] := by
  unfold splitChar
  have hdata : (a ++ String.mk [c] ++ b).data = a.data ++ c :: b.data := by
    rw [String.data_append, String.data_append]
    simp
  rw [hdata, splitCharAux_append c b.data a.data ha []]
  rw [splitCharAux_no_sep c b.data hb []]
  rfl

theorem splitChar_no_sep (c : Char) (s : String) (h : ∀ x ∈ s.data, x ≠ c) :
    splitChar c s = [s] := by
  unfold splitChar
  rw [splitCharAux_no_sep c s.data h []]
  rfl

/-! ### Claim C10 -/

/-- C10 counterexample: for the kind `"a"` (no `'+'`) and the groupVersion
`"b+c"` (which contains a `'+'`), `KindGroupVersion (ID)` returns
`("a", "b")`, not the claimed `("a", "b+c")`. -/
theorem C10_counterexample :
    (∀ x ∈ ("a" : String).data, x ≠ '+') ∧
    APIResourceGV.ID ⟨⟨"as", "", "a", [], "", ""⟩, "b+c"⟩ = "a+b+c" ∧
    IDMap.KindGroupVersion (APIResourceGV.ID ⟨⟨"as", "", "a", [], "", ""⟩, "b+c"⟩) =
      some ("a", "b") ∧
    IDMap.KindGroupVersion (APIResourceGV.ID ⟨⟨"as", "", "a", [], "", ""⟩, "b+c"⟩) ≠
      some ("a", "b+c") := by
  decide

/-- C10 (amended): for every kind containing no `'+'` and every groupVersion
containing no `'+'`, `KindGroupVersion` applied to `ID = kind + "+" + gv`
returns exactly `(kind, gv)` (a groupVersion containing `'+'` is truncated at
its first `'+'` — see the counterexample); and on a string containing no
`'+'` at all, `KindGroupVersion` is partial: the `parts[1]` access is out of
range (`none`). -/
theorem C10_kind_gv_roundtrip (agv : APIResourceGV) (s : String) :
    ((∀ x ∈ agv.resource.Kind.data, x ≠ '+') → (∀ x ∈ agv.groupVersion.data, x ≠ '+') →
      IDMap.KindGroupVersion agv.ID = some (agv.resource.Kind, agv.groupVersion)) ∧
    ((∀ x ∈ s.data, x ≠ '+') → IDMap.KindGroupVersion s = none) := by
  constructor
  · intro hk hg
    unfold APIResourceGV.ID IDMap.KindGroupVersion
    have h : agv.resource.Kind ++ "+" ++ agv.groupVersion =
        agv.resource.Kind ++ String.mk ['+'] ++ agv.groupVersion := rfl
    rw [h, splitChar_of_join '+' _ _ hk hg]
  · intro hs
    unfold IDMap.KindGroupVersion
    rw [splitChar_no_sep '+' s hs]

/-- Witness for `C10_kind_gv_roundtrip`: the Deployment descriptor's id
`"Deployment+apps/v1"` round-trips, and `"abc"` has no second part. -/
theorem C10_kind_gv_roundtrip_witness :
    IDMap.KindGroupVersion
        (APIResourceGV.ID ⟨⟨"deployments", "deployment", "Deployment", ["deploy"], "apps", "v1"⟩,
          "apps/v1"⟩) =
      some ("Deployment", "apps/v1") ∧
    IDMap.KindGroupVersion "abc" = none :=
  ⟨(C10_kind_gv_roundtrip
      ⟨⟨"deployments", "deployment", "Deployment", ["deploy"], "apps", "v1"⟩, "apps/v1"⟩
      "abc").1 (by decide) (by decide),
    (C10_kind_gv_roundtrip
      ⟨⟨"deployments", "deployment", "Deployment", ["deploy"], "apps", "v1"⟩, "apps/v1"⟩
      "abc").2 (by decide)⟩

/-! ### Alias-index lemmas (claim C4) -/

theorem mem_mappend (rm : AliasIndex) (k : String) (v : APIResourceGV) (key : String)
    (x : APIResourceGV) :
    x ∈ (alookup (mappend rm k v) key).getD [] ↔
      x ∈ (alookup rm key).getD [] ∨ (x = v ∧ key = k) := by
  unfold mappend
  rw [alookup_ainsert]
  by_cases h : k = key
  · subst h
    rw [if_pos rfl]
    simp only [Option.getD_some]
    constructor
    · intro h1
      rcases List.mem_append.mp h1 with h2 | h3
      · exact Or.inl h2
      · exact Or.inr ⟨List.mem_singleton.mp h3, trivial⟩
    · rintro (h1 | ⟨h2, _⟩)
      · exact List.mem_append.mpr (Or.inl h1)
      · exact List.mem_append.mpr (Or.inr (List.mem_singleton.mpr h2))
  · rw [if_neg h]
    constructor
    · intro h1; exact Or.inl h1
    · rintro (h1 | ⟨_, rfl⟩)
      · exact h1
      · exact absurd rfl h

theorem mem_addKeys (agv : APIResourceGV) (keys : List String) :
    ∀ (rm : AliasIndex) (key : String) (x : APIResourceGV),
      x ∈ (alookup (addKeys agv keys rm) key).getD [] ↔
        x ∈ (alookup rm key).getD [] ∨ (x = agv ∧ key ∈ keys) := by
  induction keys with
  | nil => intro rm key x; simp [addKeys]
  | cons k ks ih =>
    intro rm key x
    have hstep : addKeys agv (k :: ks) rm = addKeys agv ks (mappend rm k agv) := rfl
    rw [hstep, ih (mappend rm k agv) key x, mem_mappend]
    simp only [List.mem_cons]
    constructor
    · rintro ((h1 | ⟨h2, h3⟩) | ⟨h4, h5⟩)
      · exact Or.inl h1
      · exact Or.inr ⟨h2, Or.inl h3⟩
      · exact Or.inr ⟨h4, Or.inr h5⟩
    · rintro (h1 | ⟨h2, h3 | h4⟩)
      · exact Or.inl (Or.inl h1)
      · exact Or.inl (Or.inr ⟨h2, h3⟩)
      · exact Or.inr ⟨h2, h4⟩

theorem mem_foldl_processResource (gv : String × String) (listGV : String)
    (rs : List APIResource) :
    ∀ (rm : AliasIndex) (key : String) (x : APIResourceGV),
      x ∈ (alookup (rs.foldl (processResource gv listGV) rm) key).getD [] ↔
        x ∈ (alookup rm key).getD [] ∨
          ∃ r ∈ rs, x = ⟨{ r with Group := gv.1, Version := gv.2 }, listGV⟩ ∧
            key ∈ keysFor r gv.1 := by
  induction rs with
  | nil => intro rm key x; simp
  | cons r rest ih =>
    intro rm key x
    simp only [List.foldl_cons]
    rw [ih (processResource gv listGV rm r) key x]
    unfold processResource
    rw [mem_addKeys]
    simp only [List.exists_mem_cons_iff]
    constructor
    · rintro ((h1 | ⟨h2, h3⟩) | h4)
      · exact Or.inl h1
      · exact Or.inr (Or.inl ⟨h2, h3⟩)
      · exact Or.inr (Or.inr h4)
    · rintro (h1 | ⟨h2, h3⟩ | h4)
      · exact Or.inl (Or.inl h1)
      · exact Or.inl (Or.inr ⟨h2, h3⟩)
      · exact Or.inr h4

theorem mem_processList (rl : APIResourceList) (rm rm2 : AliasIndex)
    (h : processList rl rm = some rm2) (key : String) (x : APIResourceGV) :
    x ∈ (alookup rm2 key).getD [] ↔
      x ∈ (alookup rm key).getD [] ∨
        ∃ g v, parseGroupVersion rl.GroupVersion = some (g, v) ∧
          ∃ r ∈ rl.APIResources,
            x = ⟨{ r with Group := g, Version := v }, rl.GroupVersion⟩ ∧
              key ∈ keysFor r g := by
  unfold processList at h
  cases hgv : parseGroupVersion rl.GroupVersion with
  | none => rw [hgv] at h; simp at h
  | some gv =>
    rw [hgv] at h
    simp only [Option.some.injEq] at h
    subst h
    rw [mem_foldl_processResource]
    obtain ⟨g0, v0⟩ := gv
    constructor
    · rintro (h1 | h2)
      · exact Or.inl h1
      · exact Or.inr ⟨g0, v0, rfl, h2⟩
    · rintro (h1 | ⟨g, v, hgv2, h2⟩)
      · exact Or.inl h1
      · have hinj := Option.some.inj hgv2
        have h3 : g0 = g := congrArg Prod.fst hinj
        have h4 : v0 = v := congrArg Prod.snd hinj
        subst h3
        subst h4
        exact Or.inr h2

theorem getApiResourcesAux_cons (rl : APIResourceList) (rest : List APIResourceList)
    (rm : AliasIndex) :
    getApiResourcesAux (rl :: rest) rm =
      (processList rl rm).bind (fun rm1 => getApiResourcesAux rest rm1) := by
  show (match processList rl rm with
    | none => none
    | some rm1 => getApiResourcesAux rest rm1) =
    (processList rl rm).bind (fun rm1 => getApiResourcesAux rest rm1)
  cases processList rl rm with
  | none => rfl
  | some rm1 => rfl

theorem mem_getApiResourcesAux (catalog : List APIResourceList) :
    ∀ (rm rm2 : AliasIndex), getApiResourcesAux catalog rm = some rm2 →
      ∀ (key : String) (x : APIResourceGV),
        x ∈ (alookup rm2 key).getD [] ↔
          x ∈ (alookup rm key).getD [] ∨
            ∃ rl ∈ catalog, ∃ g v, parseGroupVersion rl.GroupVersion = some (g, v) ∧
              ∃ r ∈ rl.APIResources,
                x = ⟨{ r with Group := g, Version := v }, rl.GroupVersion⟩ ∧
                  key ∈ keysFor r g := by
  induction catalog with
  | nil =>
    intro rm rm2 h key x
    simp only [getApiResourcesAux, Option.some.injEq] at h
    subst h
    simp
  | cons rl rest ih =>
    intro rm rm2 h key x
    rw [getApiResourcesAux_cons] at h
    cases hpl : processList rl rm with
    | none => rw [hpl] at h; simp at h
    | some rm1 =>
      rw [hpl, Option.some_bind] at h
      rw [ih rm1 rm2 h key x, mem_processList rl rm rm1 hpl key x]
      simp only [List.exists_mem_cons_iff]
      constructor
      · rintro ((h1 | h2) | h3)
        · exact Or.inl h1
        · exact Or.inr (Or.inl h2)
        · exact Or.inr (Or.inr h3)
      · rintro (h1 | h2 | h3)
        · exact Or.inl (Or.inl h1)
        · exact Or.inl (Or.inr h2)
        · exact Or.inr h3

/-! ### Claim C4 -/

/-- C4: in the alias index built by `getApiResources`, a descriptor appears
under a key exactly when the key is one of that descriptor's alias keys —
its plural `Name`, its lowercased `Kind`, `"<Name>.<group>"`, one of its
`ShortNames`, or its non-empty `SingularName` (`keysFor`); each match is the
descriptor cloned with the parsed group/version, paired with the list's
group/version string. One key may collect several descriptors and the value
lists keep them all as separate entries — the index never merges them. -/
theorem C4_alias_index (catalog : List APIResourceList) (rm : AliasIndex)
    (h : getApiResources catalog = some rm) (key : String) (agv : APIResourceGV) :
    agv ∈ (alookup rm key).getD [] ↔
      ∃ rl ∈ catalog, ∃ g v, parseGroupVersion rl.GroupVersion = some (g, v) ∧
        ∃ r ∈ rl.APIResources,
          agv = ⟨{ r with Group := g, Version := v }, rl.GroupVersion⟩ ∧
            key ∈ keysFor r g := by
  have h2 := mem_getApiResourcesAux catalog [] rm h key agv
  simpa [alookup] using h2

/-- Witness for `C4_alias_index`: the Deployment descriptor is found under its
short name `"deploy"` in the index of a one-entry catalog. -/
theorem C4_alias_index_witness :
    (⟨⟨"deployments", "deployment", "Deployment", ["deploy"], "apps", "v1"⟩, "apps/v1"⟩ :
        APIResourceGV) ∈
      (alookup
        ((getApiResources
          [⟨"apps/v1", [⟨"deployments", "deployment", "Deployment", ["deploy"], "", ""⟩]⟩]).getD
          [])
        "deploy").getD [] :=
  (C4_alias_index
    [⟨"apps/v1", [⟨"deployments", "deployment", "Deployment", ["deploy"], "", ""⟩]⟩]
    ((getApiResources
      [⟨"apps/v1", [⟨"deployments", "deployment", "Deployment", ["deploy"], "", ""⟩]⟩]).getD [])
    (by decide) "deploy"
    ⟨⟨"deployments", "deployment", "Deployment", ["deploy"], "apps", "v1"⟩, "apps/v1"⟩).mpr
    ⟨⟨"apps/v1", [⟨"deployments", "deployment", "Deployment", ["deploy"], "", ""⟩]⟩, by decide,
      "apps", "v1", by decide,
      ⟨"deployments", "deployment", "Deployment", ["deploy"], "", ""⟩, by decide, by decide,
      by decide⟩

/-! ### Tokenization and resolution lemmas (claims C5 and C6) -/

theorem sanitizeStep_foldl (parts : List String) :
    ∀ acc : List String,
      parts.foldl sanitizeStep acc =
        acc ++ (parts.map trimStr).filter (fun t => decide (t ≠ "")) := by
  induction parts with
  | nil => intro acc; simp
  | cons p rest ih =>
    intro acc
    simp only [List.foldl_cons, List.map_cons, List.filter_cons]
    by_cases h : trimStr p = ""
    · rw [ih]
      simp [sanitizeStep, h]
    · rw [ih]
      simp [sanitizeStep, h]

theorem resolveIds_cons (rm : AliasIndex) (t : String) (ts : List String) :
    resolveIds rm (t :: ts) =
      ((alookup rm t).getD []).map APIResourceGV.ID ++ resolveIds rm ts := by
  simp [resolveIds]

theorem resolveIds_append (rm : AliasIndex) (ts1 ts2 : List String) :
    resolveIds rm (ts1 ++ ts2) = resolveIds rm ts1 ++ resolveIds rm ts2 := by
  simp [resolveIds]

/-! ### Claim C5 -/

/-- C5: `sanitizeKinds` splits its input on commas, trims every token and
drops the empty ones (its accumulating loop equals the map-then-filter
composition); a token that is not a key of the alias index contributes no
identity and, by itself, causes no error (deleting it from the token list
does not change the resolved ids); and whenever the whole token list
resolves to zero identities — in particular when all tokens are empty —
`list` fails with an error, so no counting is performed. -/
theorem C5_tokenization (catalog : List APIResourceList) (s t : String)
    (rm : AliasIndex) (ts1 ts2 : List String) :
    (sanitizeKinds s = ((splitChar ',' s).map trimStr).filter (fun u => decide (u ≠ ""))) ∧
    (alookup rm t = none →
      resolveIds rm (ts1 ++ t :: ts2) = resolveIds rm (ts1 ++ ts2)) ∧
    (getApiResources catalog = some rm →
      resolveIds rm (sanitizeKinds s) = [] →
      ∃ e, list catalog s = Except.error e) := by
  refine ⟨?_, ?_, ?_⟩
  · unfold sanitizeKinds
    rw [sanitizeStep_foldl]
    simp
  · intro hnone
    rw [resolveIds_append, resolveIds_append, resolveIds_cons, hnone]
    simp
  · intro hrm hempty
    unfold list
    by_cases hk : sanitizeKinds s = []
    · rw [if_pos hk]
      exact ⟨_, rfl⟩
    · rw [if_neg hk, hrm]
      show ∃ e,
        (if resolveIds rm (sanitizeKinds s) = [] then
          (Except.error "no available informers found" : Except String (List String))
        else Except.ok (resolveIds rm (sanitizeKinds s))) = Except.error e
      rw [if_pos hempty]
      exact ⟨_, rfl⟩

/-- Witness for `C5_tokenization`: on the one-entry Deployment catalog, the
token list `" xyz , abc "` tokenizes to two unknown tokens, the unknown token
`"xyz"` contributes nothing next to `"abc"`, and the whole resolution fails. -/
theorem C5_tokenization_witness :
    (alookup
        ((getApiResources
          [⟨"apps/v1", [⟨"deployments", "deployment", "Deployment", ["deploy"], "", ""⟩]⟩]).getD [])
        "xyz" = none) ∧
    (sanitizeKinds " xyz , abc " =
      ((splitChar ',' " xyz , abc ").map trimStr).filter (fun u => decide (u ≠ ""))) ∧
    (resolveIds
        ((getApiResources
          [⟨"apps/v1", [⟨"deployments", "deployment", "Deployment", ["deploy"], "", ""⟩]⟩]).getD [])
        (["abc"] ++ "xyz" :: []) =
      resolveIds
        ((getApiResources
          [⟨"apps/v1", [⟨"deployments", "deployment", "Deployment", ["deploy"], "", ""⟩]⟩]).getD [])
        (["abc"] ++ [])) ∧
    (∃ e, list [⟨"apps/v1", [⟨"deployments", "deployment", "Deployment", ["deploy"], "", ""⟩]⟩]
        " xyz , abc " = Except.error e) :=
  ⟨by decide,
    (C5_tokenization
      [⟨"apps/v1", [⟨"deployments", "deployment", "Deployment", ["deploy"], "", ""⟩]⟩]
      " xyz , abc " "xyz"
      ((getApiResources
        [⟨"apps/v1", [⟨"deployments", "deployment", "Deployment", ["deploy"], "", ""⟩]⟩]).getD [])
      ["abc"] []).1,
    (C5_tokenization
      [⟨"apps/v1", [⟨"deployments", "deployment", "Deployment", ["deploy"], "", ""⟩]⟩]
      " xyz , abc " "xyz"
      ((getApiResources
        [⟨"apps/v1", [⟨"deployments", "deployment", "Deployment", ["deploy"], "", ""⟩]⟩]).getD [])
      ["abc"] []).2.1 (by decide),
    (C5_tokenization
      [⟨"apps/v1", [⟨"deployments", "deployment", "Deployment", ["deploy"], "", ""⟩]⟩]
      " xyz , abc " "xyz"
      ((getApiResources
        [⟨"apps/v1", [⟨"deployments", "deployment", "Deployment", ["deploy"], "", ""⟩]⟩]).getD [])
      ["abc"] []).2.2 (by decide) (by decide)⟩

/-! ### Claim C6 -/

/-- C6: a token list with the same token twice resolves to the concatenation
of that token's ids with themselves, so the resolution order (`idMap.ids`,
fed by `AddID`, and likewise the per-element `informers[id] = …` registration
attempts which `resolveIds` lists one by one) contains every matched identity
twice; a duplicated raw input string tokenizes to the duplicated token list;
`list` then succeeds and returns the doubled id list; and `GetRecords` over a
store whose id list is doubled emits the whole output twice — every object of
the duplicated identity is double-counted. -/
theorem C6_duplicate_tokens (catalog : List APIResourceList) (rm : AliasIndex)
    (t s : String) (m : List (String × List (String × Int))) (ids : List String)
    (order : String) (aN : Bool) :
    (resolveIds rm [t, t] = resolveIds rm [t] ++ resolveIds rm [t]) ∧
    (trimStr t = t → t ≠ "" → (∀ x ∈ t.data, x ≠ ',') →
      sanitizeKinds (t ++ String.mk [','] ++ t) = [t, t]) ∧
    (sanitizeKinds s = [t, t] → getApiResources catalog = some rm →
      resolveIds rm [t] ≠ [] →
      list catalog s = Except.ok (resolveIds rm [t] ++ resolveIds rm [t])) ∧
    (IDMap.GetRecords ⟨m, ids ++ ids⟩ order aN =
      (IDMap.GetRecords ⟨m, ids⟩ order aN).map (fun out => out ++ out)) := by
  refine ⟨?_, ?_, ?_, ?_⟩
  · simp [resolveIds]
  · intro htrim hne hnc
    unfold sanitizeKinds
    rw [splitChar_of_join ',' t t hnc hnc]
    simp [sanitizeStep, htrim, hne]
  · intro hsan hrm hne
    unfold list
    rw [hsan]
    rw [if_neg (by simp : ¬([t, t] : List String) = [])]
    rw [hrm]
    show (if resolveIds rm [t, t] = [] then
        (Except.error "no available informers found" : Except String (List String))
      else Except.ok (resolveIds rm [t, t])) =
      Except.ok (resolveIds rm [t] ++ resolveIds rm [t])
    have hdup : resolveIds rm [t, t] = resolveIds rm [t] ++ resolveIds rm [t] := by
      simp [resolveIds]
    rw [hdup, if_neg (by simp [hne])]
  · rw [getRecords_eq, getRecords_eq]
    cases recordsOf m with
    | none => rfl
    | some recs =>
      rw [Option.some_bind, Option.some_bind]
      cases (if aN then aggregateRecords recs else some recs) with
      | none => rfl
      | some recs2 =>
        rw [Option.map_some', Option.map_some', Option.map_some']
        simp [List.flatMap_append]

/-- Witness for `C6_duplicate_tokens`: the input `"deploy,deploy"` against the
one-entry Deployment catalog returns the Deployment id twice, and a store
whose id list holds `"Pod+v1"` twice renders its single record twice. -/
theorem C6_duplicate_tokens_witness :
    (resolveIds
        ((getApiResources
          [⟨"apps/v1", [⟨"deployments", "deployment", "Deployment", ["deploy"], "", ""⟩]⟩]).getD [])
        ["deploy", "deploy"] =
      resolveIds
        ((getApiResources
          [⟨"apps/v1", [⟨"deployments", "deployment", "Deployment", ["deploy"], "", ""⟩]⟩]).getD [])
        ["deploy"] ++
      resolveIds
        ((getApiResources
          [⟨"apps/v1", [⟨"deployments", "deployment", "Deployment", ["deploy"], "", ""⟩]⟩]).getD [])
        ["deploy"]) ∧
    (sanitizeKinds ("deploy" ++ String.mk [','] ++ "deploy") = ["deploy", "deploy"]) ∧
    (list [⟨"apps/v1", [⟨"deployments", "deployment", "Deployment", ["deploy"], "", ""⟩]⟩]
        "deploy,deploy" =
      Except.ok
        (resolveIds
          ((getApiResources
            [⟨"apps/v1", [⟨"deployments", "deployment", "Deployment", ["deploy"], "", ""⟩]⟩]).getD
            [])
          ["deploy"] ++
        resolveIds
          ((getApiResources
            [⟨"apps/v1", [⟨"deployments", "deployment", "Deployment", ["deploy"], "", ""⟩]⟩]).getD
            [])
          ["deploy"])) ∧
    (IDMap.GetRecords ⟨[("Pod+v1", [("ns1", 2)])], ["Pod+v1"] ++ ["Pod+v1"]⟩ "asc" false =
      (IDMap.GetRecords ⟨[("Pod+v1", [("ns1", 2)])], ["Pod+v1"]⟩ "asc" false).map
        (fun out => out ++ out)) :=
  ⟨(C6_duplicate_tokens
      [⟨"apps/v1", [⟨"deployments", "deployment", "Deployment", ["deploy"], "", ""⟩]⟩]
      ((getApiResources
        [⟨"apps/v1", [⟨"deployments", "deployment", "Deployment", ["deploy"], "", ""⟩]⟩]).getD [])
      "deploy" "deploy,deploy" [("Pod+v1", [("ns1", 2)])] ["Pod+v1"] "asc" false).1,
    (C6_duplicate_tokens
      [⟨"apps/v1", [⟨"deployments", "deployment", "Deployment", ["deploy"], "", ""⟩]⟩]
      ((getApiResources
        [⟨"apps/v1", [⟨"deployments", "deployment", "Deployment", ["deploy"], "", ""⟩]⟩]).getD [])
      "deploy" "deploy,deploy" [("Pod+v1", [("ns1", 2)])] ["Pod+v1"] "asc" false).2.1
      (by decide) (by decide) (by decide),
    (C6_duplicate_tokens
      [⟨"apps/v1", [⟨"deployments", "deployment", "Deployment", ["deploy"], "", ""⟩]⟩]
      ((getApiResources
        [⟨"apps/v1", [⟨"deployments", "deployment", "Deployment", ["deploy"], "", ""⟩]⟩]).getD [])
      "deploy" "deploy,deploy" [("Pod+v1", [("ns1", 2)])] ["Pod+v1"] "asc" false).2.2.1
      (by decide) (by decide) (by decide),
    (C6_duplicate_tokens
      [⟨"apps/v1", [⟨"deployments", "deployment", "Deployment", ["deploy"], "", ""⟩]⟩]
      ((getApiResources
        [⟨"apps/v1", [⟨"deployments", "deployment", "Deployment", ["deploy"], "", ""⟩]⟩]).getD [])
      "deploy" "deploy,deploy" [("Pod+v1", [("ns1", 2)])] ["Pod+v1"] "asc" false).2.2.2⟩

/-! ### Claim C7 -/

/-- C7 counterexample: on an empty store the aggregation yields zero records
and the run exits with code 1, but the message `"[Oh...] No Resources
found!"` is written by `fmt.Fprintln(os.Stdout, …)` to standard output —
standard error stays empty, refuting the claim that the message goes to
standard error. -/
theorem C7_counterexample :
    ((⟨[], []⟩ : IDMap).GetRecords "asc" false = some []) ∧
    Render (fun _ _ => []) (Except.ok ⟨[], []⟩) "asc" "table" false =
      some ⟨["[Oh...] No Resources found!"], [], some 1⟩ ∧
    (Render (fun _ _ => []) (Except.ok ⟨[], []⟩) "asc" "table" false).map
        ExecResult.stderrLines = some [] ∧
    (Render (fun _ _ => []) (Except.ok ⟨[], []⟩) "asc" "table" false).map
        ExecResult.stdoutLines ≠ some [] := by
  decide

/-- C7 (amended): whenever aggregation yields zero records, the run
terminates with exit code 1 and the human-readable message
`"[Oh...] No Resources found!"` written to standard output (not standard
error, which stays empty); no record output is emitted. -/
theorem C7_empty_records (renderFn : String → List Record → List String)
    (res : Except String IDMap) (order output : String) (aN : Bool) (idm : IDMap)
    (hres : res = Except.ok idm) (hrec : idm.GetRecords order aN = some []) :
    Render renderFn res order output aN =
      some ⟨["[Oh...] No Resources found!"], [], some 1⟩ := by
  subst hres
  unfold Render
  show (match idm.GetRecords order aN with
    | none => none
    | some records =>
      if records.length ≤ 0 then
        some (⟨["[Oh...] No Resources found!"], [], some 1⟩ : ExecResult)
      else some ⟨renderFn output records, [], none⟩) =
    some ⟨["[Oh...] No Resources found!"], [], some 1⟩
  rw [hrec]
  rfl

/-- Witness for `C7_empty_records`: a store with counts but an empty
resolution order renders zero records. -/
theorem C7_empty_records_witness :
    Render (fun _ rs => [toString rs.length]) (Except.ok ⟨[("Pod+v1", [("ns1", 2)])], []⟩)
        "asc" "json" false =
      some ⟨["[Oh...] No Resources found!"], [], some 1⟩ :=
  C7_empty_records (fun _ rs => [toString rs.length]) (Except.ok ⟨[("Pod+v1", [("ns1", 2)])], []⟩)
    "asc" "json" false ⟨[("Pod+v1", [("ns1", 2)])], []⟩ rfl (by decide)
